import Mathlib

/-!
Verification of the session/game-state server (`src/server.py`).

The server coordinates up to three websocket clients racing to claim cells
on a shared 5×5 grid.  This file gives a shallow embedding of the server's
shared state and of its three kinds of serialized operations (connection
admission, claim processing, disconnect cleanup), together with the pure
win/tie evaluation `check_winner`, and proves or refutes the specification
claims about them.

Conventions of the embedding:
 - a board cell is `Option Sym` (`none` is the blank `' '` marker);
 - the board is a `List (List Cell)` exactly as the Python list-of-lists;
 - the per-connection websocket object is identified by a `Nat` key;
 - machine-level JSON messages are modelled by the inductive `Msg`,
   tagged with their destination (`Out.uni` = unicast, `Out.all` =
   broadcast via `broadcast`);
 - the Python `IndexError` raised by `SYMBOLS[player_id_counter - 1]`
   when the counter exceeds the alphabet size is modelled by the
   `AdmitRes.crash` constructor, which records the partially mutated
   state (`connected` already contains the new key, `players` does not,
   mirroring the order of lines 73-76 of `server.py`).
-/

namespace GridServer

/-- The three player symbols, `SYMBOLS = ['X', 'O', '△']` in the source. -/
inductive Sym where
  | X : Sym
  | O : Sym
  | Tri : Sym
deriving DecidableEq, Fintype

/-- A board cell: `none` is the blank `' '` marker of the source. -/
abbrev Cell := Option Sym

/-- A board is a list of rows, as the Python list-of-lists. -/
abbrev Board := List (List Cell)

/-- `BOARD_SIZE = 5` in the source. -/
abbrev BOARD_SIZE : Nat := 5

/-- `SYMBOLS = ['X', 'O', '△']` in the source. -/
def SYMBOLS : List Sym := [Sym.X, Sym.O, Sym.Tri]

/-- The fresh all-blank board allocated at game start (line 90). -/
def emptyBoard : Board :=
  List.replicate BOARD_SIZE (List.replicate BOARD_SIZE (none : Cell))

/-- `board[r][c]`: cell access.  In the source every access is either
bounds-checked first or made on a well-formed 5×5 board, so the default
values are never exercised on the states the server actually reaches. -/
def getCell (b : Board) (r c : Nat) : Cell :=
  (b.getD r []).getD c none

/-- `board[r][c] = v`: cell update (line 107). -/
def setCell (b : Board) (r c : Nat) (v : Cell) : Board :=
  b.set r ((b.getD r []).set c v)

/-- The test applied by the source to each of rows, columns and the two
diagonals: all cells of the line equal its first cell and that cell is not
blank; the winning symbol is returned (`check_winner` lines 34-45). -/
def lineWin : List Cell → Option Sym
  | [] => none
  | c :: rest =>
    match c with
    | none => none
    | some s =>
      if (c :: rest).all (fun x => decide (x = some s)) then some s else none

/-- Column `j` of the board, read as in the source: `board[row][j]` for
`row in range(BOARD_SIZE)` (line 39). -/
def colOf (b : Board) (j : Nat) : List Cell :=
  (List.range BOARD_SIZE).map (fun i => getCell b i j)

/-- The main diagonal `board[i][i]` for `i in range(BOARD_SIZE)` (line 42). -/
def diag1 (b : Board) : List Cell :=
  (List.range BOARD_SIZE).map (fun i => getCell b i i)

/-- The anti-diagonal `board[i][BOARD_SIZE - 1 - i]` (line 44). -/
def diag2 (b : Board) : List Cell :=
  (List.range BOARD_SIZE).map (fun i => getCell b i (BOARD_SIZE - 1 - i))

/-- `all(cell != ' ' for row in board for cell in row)` (line 48). -/
def isFull (b : Board) : Bool :=
  b.all (fun row => row.all (fun c => c.isSome))

/-- `scores[s]`: the number of cells holding symbol `s` (lines 50-54). -/
def countSym (b : Board) (s : Sym) : Nat :=
  (b.map (fun row => row.countP (fun c => decide (c = some s)))).sum

/-- `max_score = max(scores.values())` (line 55). -/
def maxScore (b : Board) : Nat :=
  max (countSym b Sym.X) (max (countSym b Sym.O) (countSym b Sym.Tri))

/-- The tie-break of `check_winner` lines 49-60: the per-symbol counts are
taken, and the symbols attaining the maximum are collected in `SYMBOLS`
order (the insertion order of the Python `scores` dict); a unique leader
wins, otherwise there is no winner. -/
def tieBreak (b : Board) : Option Sym :=
  match SYMBOLS.filter (fun t => decide (countSym b t = maxScore b)) with
  | [w] => some w
  | _ => none

/-- `check_winner` (lines 31-62): rows, then columns, then the two
diagonals, each with an early return; then, if the board is full, the
count-based tie-break; otherwise no winner yet. -/
def check_winner (b : Board) : Option Sym :=
  match b.findSome? lineWin with
  | some s => some s
  | none =>
    match (List.range BOARD_SIZE).findSome? (fun j => lineWin (colOf b j)) with
    | some s => some s
    | none =>
      match lineWin (diag1 b) with
      | some s => some s
      | none =>
        match lineWin (diag2 b) with
        | some s => some s
        | none => if isFull b then tieBreak b else none

/-- Spec-level predicate, written from the spec's words ("a participant
wins if all N cells of any row, any column, or either of the two full
diagonals hold that participant's symbol and none are empty"): a line win
for symbol `s`. -/
def specLineWin (b : Board) (s : Sym) : Prop :=
  (∃ i < BOARD_SIZE, ∀ j < BOARD_SIZE, getCell b i j = some s) ∨
  (∃ j < BOARD_SIZE, ∀ i < BOARD_SIZE, getCell b i j = some s) ∨
  (∀ i < BOARD_SIZE, getCell b i i = some s) ∨
  (∀ i < BOARD_SIZE, getCell b i (BOARD_SIZE - 1 - i) = some s)

instance (b : Board) (s : Sym) : Decidable (specLineWin b s) := by
  unfold specLineWin
  infer_instance

/-- Spec-level predicate, written from the spec's words ("if exactly one
symbol attains the maximum count, that symbol is the tie-break winner"):
`s` strictly dominates every other symbol's occupied-cell count. -/
def specUniqueMax (b : Board) (s : Sym) : Prop :=
  ∀ t : Sym, t ≠ s → countSym b t < countSym b s

instance (b : Board) (s : Sym) : Decidable (specUniqueMax b s) := by
  unfold specUniqueMax
  infer_instance

/-- Well-formedness of a board: 5 rows of 5 cells, as allocated at game
start and preserved by every claim. -/
def wfBoard (b : Board) : Prop :=
  b.length = BOARD_SIZE ∧ ∀ r ∈ b, r.length = BOARD_SIZE

instance (b : Board) : Decidable (wfBoard b) := by
  unfold wfBoard
  infer_instance

/-- A concrete full board with 13 `X`, 12 `O`, no line win: `check_winner`
returns `X` through the count tie-break although no line is all-`X`. -/
def majBoard : Board :=
  [[some Sym.X, some Sym.O, some Sym.X, some Sym.O, some Sym.X],
   [some Sym.O, some Sym.X, some Sym.X, some Sym.O, some Sym.O],
   [some Sym.X, some Sym.X, some Sym.O, some Sym.O, some Sym.X],
   [some Sym.O, some Sym.X, some Sym.O, some Sym.X, some Sym.O],
   [some Sym.X, some Sym.O, some Sym.X, some Sym.O, some Sym.X]]

/-- A concrete full board with 12 `X`, 12 `O`, 1 `△`, no line win: the
maximum count is attained by both `X` and `O`, a true draw. -/
def drawBoard : Board :=
  [[some Sym.X, some Sym.O, some Sym.X, some Sym.O, some Sym.X],
   [some Sym.O, some Sym.X, some Sym.X, some Sym.O, some Sym.O],
   [some Sym.X, some Sym.X, some Sym.O, some Sym.O, some Sym.X],
   [some Sym.O, some Sym.X, some Sym.O, some Sym.X, some Sym.O],
   [some Sym.X, some Sym.O, some Sym.X, some Sym.O, some Sym.Tri]]

/-! ## The shared server state and its operations -/

/-- A participant as stored in `players[websocket]`: `{'id': ..,
'symbol': ..}` (line 74). -/
abbrev Player := Nat × Sym

/-- The shared module-level state of `server.py` (lines 10-17): the
`connected` set, the `players` dict (an insertion-ordered association
list keyed by the connection), `player_id_counter`, the optional `board`,
and the `game_started` / `game_over` / `winner` flags. -/
structure SState where
  connected : List Nat
  players : List (Nat × Player)
  counter : Nat
  board : Option Board
  started : Bool
  over : Bool
  winner : Option Sym
deriving DecidableEq

/-- The state at process start (lines 10-17). -/
def initState : SState :=
  { connected := [], players := [], counter := 1, board := none,
    started := false, over := false, winner := none }

/-- The outbound messages of §6 of the spec, as produced by `server.py`. -/
inductive Msg where
  | playerInfo (id : Nat) (sym : Sym)
  | playerList (ps : List Player)
  | started (b : Board)
  | update (b : Board)
  | gameOver (w : Option Sym)
  | aborted
  | closedFull
deriving DecidableEq

/-- A message together with its destination: `Out.uni c m` is sent on
connection `c` only (`websocket.send`), `Out.all m` goes through
`broadcast` to every connected client. -/
inductive Out where
  | uni (c : Nat) (m : Msg)
  | all (m : Msg)
deriving DecidableEq

/-- `connected_players` (lines 83 and 129): the ordered id/symbol list
built from `players.values()`. -/
def playersList (s : SState) : List Player :=
  s.players.map (fun kv => kv.2)

/-- Result of the admission block (lines 68-76). `full`: the capacity
check failed and the connection is closed with reason 1008.  `crash s'`:
`SYMBOLS[player_id_counter - 1]` raised `IndexError` after the connection
was already added to `connected` (line 73 precedes line 74); `s'` is the
partially mutated state the server is left in — the exception escapes the
handler before its `try`, so no cleanup ever runs for this connection.
`ok s' p`: the participant `p` was registered. -/
inductive AdmitRes where
  | full
  | crash (s' : SState)
  | ok (s' : SState) (p : Player)
deriving DecidableEq

/-- The admission block, lines 68-76 of `server.py`. -/
def admitConn (s : SState) (c : Nat) : AdmitRes :=
  if s.connected.length ≥ SYMBOLS.length then .full
  else
    let connected' := s.connected ++ [c]
    match SYMBOLS.get? (s.counter - 1) with
    | none => .crash { s with connected := connected' }
    | some sym =>
      .ok { s with connected := connected',
                   players := s.players ++ [(c, (s.counter, sym))],
                   counter := s.counter + 1 }
          (s.counter, sym)

/-- The connection-open path of `handler` (lines 65-97): admission, the
unicast identity message, the participant-list broadcast, the possible
Waiting→Active transition (lines 86-91), and the late-joiner catch-up
(lines 93-97). -/
def connStep (s : SState) (c : Nat) : SState × List Out :=
  match admitConn s c with
  | .full => (s, [.uni c .closedFull])
  | .crash s' => (s', [])
  | .ok s1 p =>
    let outs1 := [Out.uni c (.playerInfo p.1 p.2), Out.all (.playerList (playersList s1))]
    let startNow : Bool := decide (s1.connected.length ≥ 2) && !s1.started
    let s2 := if startNow then { s1 with started := true, board := some emptyBoard } else s1
    let outs2 := if startNow then [Out.all (.started emptyBoard)] else []
    let outs3 :=
      if s2.started then
        [Out.uni c (.started (s2.board.getD []))] ++
          (if s2.over then [Out.uni c (.gameOver s2.winner)] else [])
      else []
    (s2, outs1 ++ outs2 ++ outs3)

/-- The claim arbitration of `handler` (lines 102-118): only while the
game is started and not over; coordinates must lie in `[0, BOARD_SIZE)`
and the target cell must be blank; on success the cell is set to the
claimant's symbol, the board update is broadcast, and `check_winner` is
consulted; a truthy result records the winner, ends the game and is
broadcast.  Every failed precondition is a silent no-op. -/
def claimCore (s : SState) (p : Player) (row col : Int) : SState × List Out :=
  if s.started = true ∧ s.over = false then
    let b := s.board.getD []
    if 0 ≤ row ∧ row < BOARD_SIZE ∧ 0 ≤ col ∧ col < BOARD_SIZE ∧
        getCell b row.toNat col.toNat = none then
      let b' := setCell b row.toNat col.toNat (some p.2)
      match check_winner b' with
      | some w =>
        ({ s with board := some b', over := true, winner := some w },
         [Out.all (.update b'), Out.all (.gameOver (some w))])
      | none => ({ s with board := some b' }, [Out.all (.update b')])
    else (s, [])
  else (s, [])

/-- A claim message dispatched for connection `c`: the handler of `c`
holds the participant record created at its admission, which is exactly
the entry of `players` keyed by `c`. -/
def claimDispatch (s : SState) (c : Nat) (row col : Int) : SState × List Out :=
  match s.players.lookup c with
  | some p => claimCore s p row col
  | none => (s, [])

/-- The disconnect cleanup of `handler` (the `finally` block, lines
122-143): removal from `connected` and `players`, the participant-list
rebroadcast, the abort when a started, unfinished game drops below 2
participants, and the full reset when the registry empties. -/
def discStep (s : SState) (c : Nat) : SState × List Out :=
  let connected' := s.connected.filter (fun x => decide (x ≠ c))
  let players' := s.players.filter (fun kv => decide (kv.1 ≠ c))
  let s1 := { s with connected := connected', players := players' }
  let outs1 := [Out.all (.playerList (playersList s1))]
  let abortNow : Bool := s1.started && !s1.over && decide (connected'.length < 2)
  let s2 := if abortNow then { s1 with over := true } else s1
  let outs2 := if abortNow then [Out.all .aborted] else []
  let s3 :=
    if connected'.length = 0 then
      { s2 with counter := 1, board := none, started := false, over := false, winner := none }
    else s2
  (s3, outs1 ++ outs2)

/-- The three kinds of events the serialized server state reacts to. -/
inductive Ev where
  | connect (c : Nat)
  | claim (c : Nat) (row col : Int)
  | disconnect (c : Nat)
deriving DecidableEq

/-- One serialized step of the server. -/
def step (s : SState) : Ev → SState × List Out
  | .connect c => connStep s c
  | .claim c row col => claimDispatch s c row col
  | .disconnect c => discStep s c

/-- The state component of one step. -/
def stepS (s : SState) (e : Ev) : SState := (step s e).1

/-- Run a sequence of events from a state. -/
def run (s : SState) : List Ev → SState
  | [] => s
  | e :: evs => run (stepS s e) evs

/-- Validity of an event against a state: a freshly opened websocket is a
fresh object, so a connect event never carries a key already present in
`connected`.  Claim and disconnect events are guarded by the dispatch
itself. -/
def validEvB (s : SState) : Ev → Bool
  | .connect c => decide (c ∉ s.connected)
  | _ => true

/-- Validity of a whole event sequence from a state. -/
def validFromB : SState → List Ev → Bool
  | _, [] => true
  | s, e :: evs => validEvB s e && validFromB (stepS s e) evs

/-- The board survives (is not reset to `None`) at every point of the
event sequence. -/
def noResetB : SState → List Ev → Bool
  | _, [] => true
  | s, e :: evs => !(stepS s e).board.isNone && noResetB (stepS s e) evs

/-- The states the server can reach from process start. -/
inductive Reachable : SState → Prop where
  | init : Reachable initState
  | step : ∀ s e, Reachable s → validEvB s e = true → Reachable (stepS s e)

/-! ## Inbound messages and the per-connection loop -/

/-- An inbound frame as the message loop of `handler` (lines 100-104)
distinguishes them: a frame that is not valid JSON (`json.loads` raises),
a claim message — `data.get("action") == "claim"` — whose `row`/`col`
keys may be absent (`data["row"]`/`data["col"]` raise `KeyError`), or any
other valid JSON object, which is ignored. -/
inductive Inbound where
  | invalidJson
  | claimMsg (row col : Option Int)
  | other
deriving DecidableEq

/-- The exceptions that can escape one iteration of the message loop. -/
inductive HErr where
  | parseError
  | keyError
deriving DecidableEq

/-- One iteration of the `async for` message loop (lines 100-118).
`json.loads` runs first; the state guard of line 102 runs before the
`row`/`col` accesses of lines 103-104, so a claim received while the game
is not running never touches the missing keys. -/
def handleMessage (s : SState) (c : Nat) : Inbound → Except HErr (SState × List Out)
  | .invalidJson => .error .parseError
  | .other => .ok (s, [])
  | .claimMsg ro co =>
    if s.started = true ∧ s.over = false then
      match ro, co with
      | some r, some cl => .ok (claimDispatch s c r cl)
      | _, _ => .error .keyError
    else .ok (s, [])

/-- The whole message loop followed by the `finally` cleanup: the stream
ending (connection closed) and an uncaught exception both run the same
`finally` block (`discStep`); after an exception the rest of the inbound
stream is never read. -/
def connLoop (s : SState) (c : Nat) : List Inbound → SState × List Out
  | [] => discStep s c
  | m :: ms =>
    match handleMessage s c m with
    | .ok (s', out) =>
      let r := connLoop s' c ms
      (r.1, out ++ r.2)
    | .error _ => discStep s c

/-- An event sequence that fills every cell of `drawBoard` except the
last corner `(4,4)`: connection 1 plays `X`, connection 2 plays `O`,
connection 3 plays `△`. -/
def traceC1 : List Ev :=
  [Ev.connect 1, Ev.connect 2, Ev.connect 3,
   Ev.claim 1 0 0, Ev.claim 2 0 1, Ev.claim 1 0 2, Ev.claim 2 0 3, Ev.claim 1 0 4,
   Ev.claim 2 1 0, Ev.claim 1 1 1, Ev.claim 1 1 2, Ev.claim 2 1 3, Ev.claim 2 1 4,
   Ev.claim 1 2 0, Ev.claim 1 2 1, Ev.claim 2 2 2, Ev.claim 2 2 3, Ev.claim 1 2 4,
   Ev.claim 2 3 0, Ev.claim 1 3 1, Ev.claim 2 3 2, Ev.claim 1 3 3, Ev.claim 2 3 4,
   Ev.claim 1 4 0, Ev.claim 2 4 1, Ev.claim 1 4 2, Ev.claim 2 4 3]

/-- Modelled from the spec: "assigns the lowest symbol index not
currently in use".  The code has no such computation — it indexes
`SYMBOLS` by the identity counter — so the spec's assignment rule is
stated here for comparison. -/
def specLowestFreeSymbol (s : SState) : Option Sym :=
  SYMBOLS.find? (fun y => decide (y ∉ s.players.map (fun kv => kv.2.2)))

/-! ## Lemmas about the win/tie evaluation -/

lemma lineWin_sound {l : List Cell} {s : Sym} (h : lineWin l = some s) :
    ∀ c ∈ l, c = some s := by
  cases l with
  | nil => simp [lineWin] at h
  | cons c rest =>
    cases c with
    | none => simp [lineWin] at h
    | some t =>
      simp only [lineWin] at h
      split at h
      · next hall =>
        injection h with h'
        subst h'
        intro x hx
        have := List.all_eq_true.mp hall x hx
        exact of_decide_eq_true this
      · exact absurd h (by simp)

lemma getD_eq_of_lt {α : Type} (l : List α) (d : α) {i : Nat} (h : i < l.length) :
    l.getD i d = l[i] := by
  rw [List.getD_eq_getElem?_getD, List.getElem?_eq_getElem h]
  rfl

lemma row_spec {b : Board} (hwf : wfBoard b) {row : List Cell} (hmem : row ∈ b)
    {s : Sym} (hall : ∀ c ∈ row, c = some s) :
    ∃ i < BOARD_SIZE, ∀ j < BOARD_SIZE, getCell b i j = some s := by
  obtain ⟨hlen, hrows⟩ := hwf
  obtain ⟨i, hi, hrow⟩ := List.mem_iff_getElem.mp hmem
  refine ⟨i, by omega, ?_⟩
  intro j hj
  have hrl : row.length = BOARD_SIZE := hrows row hmem
  unfold getCell
  rw [getD_eq_of_lt b [] hi, hrow, getD_eq_of_lt row none (by omega)]
  exact hall _ (List.getElem_mem _)

lemma mapRange_spec {f : Nat → Cell} {s : Sym}
    (h : lineWin ((List.range BOARD_SIZE).map f) = some s) :
    ∀ i < BOARD_SIZE, f i = some s := by
  intro i hi
  exact lineWin_sound h (f i) (List.mem_map_of_mem f (List.mem_range.mpr hi))

lemma countSym_le_maxScore (b : Board) (t : Sym) : countSym b t ≤ maxScore b := by
  cases t <;> (unfold maxScore; omega)

lemma tieBreak_some_of_uniqueMax {b : Board} {s : Sym} (h : specUniqueMax b s) :
    tieBreak b = some s := by
  unfold tieBreak
  cases s with
  | X =>
    have h1 := h Sym.O (by decide)
    have h2 := h Sym.Tri (by decide)
    have hM : maxScore b = countSym b Sym.X := by unfold maxScore; omega
    have d1 : decide (countSym b Sym.X = maxScore b) = true := by
      rw [hM]; exact decide_eq_true rfl
    have d2 : decide (countSym b Sym.O = maxScore b) = false := by
      rw [hM]; exact decide_eq_false (by omega)
    have d3 : decide (countSym b Sym.Tri = maxScore b) = false := by
      rw [hM]; exact decide_eq_false (by omega)
    simp [SYMBOLS, d1, d2, d3]
  | O =>
    have h1 := h Sym.X (by decide)
    have h2 := h Sym.Tri (by decide)
    have hM : maxScore b = countSym b Sym.O := by unfold maxScore; omega
    have d1 : decide (countSym b Sym.X = maxScore b) = false := by
      rw [hM]; exact decide_eq_false (by omega)
    have d2 : decide (countSym b Sym.O = maxScore b) = true := by
      rw [hM]; exact decide_eq_true rfl
    have d3 : decide (countSym b Sym.Tri = maxScore b) = false := by
      rw [hM]; exact decide_eq_false (by omega)
    simp [SYMBOLS, d1, d2, d3]
  | Tri =>
    have h1 := h Sym.X (by decide)
    have h2 := h Sym.O (by decide)
    have hM : maxScore b = countSym b Sym.Tri := by unfold maxScore; omega
    have d1 : decide (countSym b Sym.X = maxScore b) = false := by
      rw [hM]; exact decide_eq_false (by omega)
    have d2 : decide (countSym b Sym.O = maxScore b) = false := by
      rw [hM]; exact decide_eq_false (by omega)
    have d3 : decide (countSym b Sym.Tri = maxScore b) = true := by
      rw [hM]; exact decide_eq_true rfl
    simp [SYMBOLS, d1, d2, d3]

lemma uniqueMax_of_tieBreak_some {b : Board} {s : Sym} (h : tieBreak b = some s) :
    specUniqueMax b s := by
  unfold tieBreak at h
  cases hf : SYMBOLS.filter (fun t => decide (countSym b t = maxScore b)) with
  | nil => rw [hf] at h; simp at h
  | cons w tail =>
    cases tail with
    | nil =>
      rw [hf] at h
      simp only [Option.some.injEq] at h
      subst h
      have hsMem : w ∈ SYMBOLS.filter (fun t => decide (countSym b t = maxScore b)) := by
        rw [hf]; exact List.mem_cons_self _ _
      have hsM : countSym b w = maxScore b :=
        of_decide_eq_true (List.mem_filter.mp hsMem).2
      intro t hts
      have htM : countSym b t ≠ maxScore b := by
        intro hEq
        have htMem : t ∈ SYMBOLS.filter (fun u => decide (countSym b u = maxScore b)) :=
          List.mem_filter.mpr ⟨by cases t <;> simp [SYMBOLS], by simp [hEq]⟩
        rw [hf] at htMem
        simp only [List.mem_singleton] at htMem
        exact hts htMem
      have := countSym_le_maxScore b t
      omega
    | cons w2 tail2 => rw [hf] at h; simp at h

lemma tieBreak_eq_some_iff {b : Board} {s : Sym} :
    tieBreak b = some s ↔ specUniqueMax b s :=
  ⟨uniqueMax_of_tieBreak_some, tieBreak_some_of_uniqueMax⟩

/-- Structure of `check_winner`: any symbol it returns comes either from
one of the four line checks or from the full-board tie-break. -/
lemma check_winner_some {b : Board} {s : Sym} (hwf : wfBoard b)
    (h : check_winner b = some s) :
    specLineWin b s ∨ (isFull b = true ∧ tieBreak b = some s) := by
  unfold check_winner at h
  cases hrow : b.findSome? lineWin with
  | some t =>
    rw [hrow] at h
    simp only [Option.some.injEq] at h
    subst h
    obtain ⟨row, hmem, hwin⟩ := List.exists_of_findSome?_eq_some hrow
    exact Or.inl (Or.inl (row_spec hwf hmem (lineWin_sound hwin)))
  | none =>
    rw [hrow] at h
    cases hcol : (List.range BOARD_SIZE).findSome? (fun j => lineWin (colOf b j)) with
    | some t =>
      rw [hcol] at h
      simp only [Option.some.injEq] at h
      subst h
      obtain ⟨j, hmem, hwin⟩ := List.exists_of_findSome?_eq_some hcol
      refine Or.inl (Or.inr (Or.inl ⟨j, List.mem_range.mp hmem, ?_⟩))
      exact mapRange_spec hwin
    | none =>
      rw [hcol] at h
      cases hd1 : lineWin (diag1 b) with
      | some t =>
        rw [hd1] at h
        simp only [Option.some.injEq] at h
        subst h
        exact Or.inl (Or.inr (Or.inr (Or.inl (mapRange_spec hd1))))
      | none =>
        rw [hd1] at h
        cases hd2 : lineWin (diag2 b) with
        | some t =>
          rw [hd2] at h
          simp only [Option.some.injEq] at h
          subst h
          exact Or.inl (Or.inr (Or.inr (Or.inr (mapRange_spec hd2))))
        | none =>
          rw [hd2] at h
          by_cases hfull : isFull b = true
          · rw [if_pos hfull] at h
            exact Or.inr ⟨hfull, h⟩
          · rw [if_neg hfull] at h
            simp at h

/-- Structure of `check_winner`: when no line win exists (in the spec's
sense) the four line checks all fail, so the result is the tie-break on a
full board and no-winner-yet otherwise. -/
lemma check_winner_of_no_line {b : Board} (hwf : wfBoard b)
    (hnl : ∀ s : Sym, ¬ specLineWin b s) :
    check_winner b = if isFull b then tieBreak b else none := by
  unfold check_winner
  cases hrow : b.findSome? lineWin with
  | some t =>
    obtain ⟨row, hmem, hwin⟩ := List.exists_of_findSome?_eq_some hrow
    exact absurd (Or.inl (row_spec hwf hmem (lineWin_sound hwin))) (hnl t)
  | none =>
    cases hcol : (List.range BOARD_SIZE).findSome? (fun j => lineWin (colOf b j)) with
    | some t =>
      obtain ⟨j, hmem, hwin⟩ := List.exists_of_findSome?_eq_some hcol
      exact absurd (Or.inr (Or.inl ⟨j, List.mem_range.mp hmem, mapRange_spec hwin⟩)) (hnl t)
    | none =>
      cases hd1 : lineWin (diag1 b) with
      | some t => exact absurd (Or.inr (Or.inr (Or.inl (mapRange_spec hd1)))) (hnl t)
      | none =>
        cases hd2 : lineWin (diag2 b) with
        | some t => exact absurd (Or.inr (Or.inr (Or.inr (mapRange_spec hd2)))) (hnl t)
        | none => rfl

/-! ## Claims C4, C6, C7 -/

/-- C4, counterexample to the claim as stated: on the full board
`majBoard` (13 `X`, 12 `O`, no complete line of one symbol)
`check_winner` returns `X` through the count tie-break, so the evaluation
returns a symbol although no row, column or diagonal is entirely that
symbol. -/
theorem C4_counterexample :
    check_winner majBoard = some Sym.X ∧ ¬ specLineWin majBoard Sym.X := by
  decide

/-- C4 (amended): for every well-formed board, the win/tie evaluation
returns a symbol only if either every cell of some row, column or full
diagonal equals that symbol (and no cell of that line is empty), or the
board is completely full and that symbol uniquely attains the maximum
occupied-cell count. -/
theorem C4_amended_thm (b : Board) (s : Sym) (hwf : wfBoard b)
    (h : check_winner b = some s) :
    specLineWin b s ∨ (isFull b = true ∧ specUniqueMax b s) := by
  rcases check_winner_some hwf h with hl | ⟨hfull, htb⟩
  · exact Or.inl hl
  · exact Or.inr ⟨hfull, uniqueMax_of_tieBreak_some htb⟩

theorem C4_amended_witness :
    (wfBoard majBoard ∧ check_winner majBoard = some Sym.X) ∧
      (specLineWin majBoard Sym.X ∨
        (isFull majBoard = true ∧ specUniqueMax majBoard Sym.X)) :=
  ⟨by decide, C4_amended_thm majBoard Sym.X (by decide) (by decide)⟩

/-- C6: for every completely full well-formed board with no line winner,
the evaluation returns exactly the symbol that uniquely attains the
maximum occupied-cell count, and returns none precisely when no symbol
does (i.e. when two or more symbols tie for the maximum). -/
theorem C6_thm (b : Board) (hwf : wfBoard b) (hfull : isFull b = true)
    (hnl : ∀ s : Sym, ¬ specLineWin b s) :
    (∀ s : Sym, (check_winner b = some s ↔ specUniqueMax b s)) ∧
      (check_winner b = none ↔ ∀ s : Sym, ¬ specUniqueMax b s) := by
  have hmain : ∀ s : Sym, (check_winner b = some s ↔ specUniqueMax b s) := by
    intro s
    rw [check_winner_of_no_line hwf hnl, if_pos hfull]
    exact tieBreak_eq_some_iff
  refine ⟨hmain, ?_, ?_⟩
  · intro hnone s hu
    have := (hmain s).mpr hu
    rw [hnone] at this
    cases this
  · intro hall
    cases hcw : check_winner b with
    | none => rfl
    | some s => exact absurd ((hmain s).mp hcw) (hall s)

theorem C6_witness :
    (wfBoard majBoard ∧ isFull majBoard = true ∧
        (∀ s : Sym, ¬ specLineWin majBoard s)) ∧
      ((∀ s : Sym, (check_winner majBoard = some s ↔ specUniqueMax majBoard s)) ∧
        (check_winner majBoard = none ↔ ∀ s : Sym, ¬ specUniqueMax majBoard s)) :=
  ⟨by decide, C6_thm majBoard (by decide) (by decide) (by decide)⟩

/-- C7: a claim whose session-state precondition fails (game not started
or already over), whose coordinates are out of `[0, BOARD_SIZE)`, or
whose target cell is non-empty, is a silent no-op: the state is returned
unchanged and no message is produced. -/
theorem C7_thm (s : SState) (p : Player) (row col : Int)
    (h : ¬ (s.started = true ∧ s.over = false) ∨
         ¬ (0 ≤ row ∧ row < BOARD_SIZE ∧ 0 ≤ col ∧ col < BOARD_SIZE) ∨
         getCell (s.board.getD []) row.toNat col.toNat ≠ none) :
    claimCore s p row col = (s, []) := by
  unfold claimCore
  rcases h with h | h | h
  · rw [if_neg h]
  · split
    · dsimp only
      split
      · next hcond => exact absurd ⟨hcond.1, hcond.2.1, hcond.2.2.1, hcond.2.2.2.1⟩ h
      · rfl
    · rfl
  · split
    · dsimp only
      split
      · next hcond => exact absurd hcond.2.2.2.2 h
      · rfl
    · rfl

theorem C7_witness :
    (¬ (initState.started = true ∧ initState.over = false)) ∧
      claimCore initState (1, Sym.X) 0 0 = (initState, []) :=
  ⟨by decide, C7_thm initState (1, Sym.X) 0 0 (Or.inl (by decide))⟩

/-! ## Invariants of the reachable states -/

/-- Invariants maintained by every serialized operation of the server:
the board exists exactly while the game is started; a started unfinished
game has at least 2 participants; the winner is recorded only once the
game is over; any allocated board is a well-formed 5×5 grid; and the
`connected` set holds no duplicates. -/
def Inv (s : SState) : Prop :=
  (s.board.isSome = s.started) ∧
  (s.started = true → s.over = false → 2 ≤ s.connected.length) ∧
  (s.over = false → s.winner = none) ∧
  (∀ b, s.board = some b → wfBoard b) ∧
  s.connected.Nodup

lemma inv_init : Inv initState := by
  refine ⟨rfl, by simp [initState], fun _ => rfl, ?_, List.nodup_nil⟩
  intro b hb
  cases hb

lemma nodup_snoc {l : List Nat} {c : Nat} (h : l.Nodup) (hc : c ∉ l) :
    (l ++ [c]).Nodup := by
  rw [List.nodup_append_comm]
  exact List.nodup_cons.mpr ⟨hc, h⟩

lemma wfBoard_setCell {b : Board} (h : wfBoard b) (r c : Nat) (v : Cell) :
    wfBoard (setCell b r c v) := by
  obtain ⟨hlen, hrows⟩ := h
  refine ⟨by simpa [setCell] using hlen, ?_⟩
  intro row hrow
  rw [setCell] at hrow
  by_cases hr : r < b.length
  · rcases List.mem_or_eq_of_mem_set hrow with hmem | heq
    · exact hrows row hmem
    · subst heq
      rw [List.length_set, getD_eq_of_lt b [] hr]
      exact hrows _ (List.getElem_mem _)
  · rw [List.set_eq_of_length_le (by omega)] at hrow
    exact hrows row hrow

/-- Case analysis of the admission block. -/
lemma admitConn_cases (s : SState) (c : Nat) :
    (s.connected.length ≥ SYMBOLS.length ∧ admitConn s c = .full) ∨
    (s.connected.length < SYMBOLS.length ∧ SYMBOLS.get? (s.counter - 1) = none ∧
      admitConn s c = .crash { s with connected := s.connected ++ [c] }) ∨
    (∃ sym, s.connected.length < SYMBOLS.length ∧
      SYMBOLS.get? (s.counter - 1) = some sym ∧
      admitConn s c =
        .ok { s with
              connected := s.connected ++ [c],
              players := s.players ++ [(c, (s.counter, sym))],
              counter := s.counter + 1 }
          (s.counter, sym)) := by
  unfold admitConn
  split
  · next h => exact Or.inl ⟨h, rfl⟩
  · next h =>
    cases hg : SYMBOLS.get? (s.counter - 1) with
    | none => exact Or.inr (Or.inl ⟨by omega, rfl, rfl⟩)
    | some sym => exact Or.inr (Or.inr ⟨sym, by omega, rfl, rfl⟩)

lemma inv_connect {s : SState} (hInv : Inv s) {c : Nat} (hc : c ∉ s.connected) :
    Inv (connStep s c).1 := by
  obtain ⟨h1, h2, h3, h4, h5⟩ := hInv
  rcases admitConn_cases s c with ⟨hlen, hA⟩ | ⟨hlen, hg, hA⟩ | ⟨sym, hlen, hg, hA⟩ <;>
    simp only [connStep, hA]
  · exact ⟨h1, h2, h3, h4, h5⟩
  · refine ⟨h1, ?_, h3, h4, nodup_snoc h5 hc⟩
    intro hst hov
    have := h2 hst hov
    simp only [List.length_append, List.length_singleton]
    omega
  · dsimp only
    split
    · next hstart =>
      simp only [Bool.and_eq_true, Bool.not_eq_true', decide_eq_true_eq] at hstart
      refine ⟨rfl, ?_, h3, ?_, nodup_snoc h5 hc⟩
      · intro _ _
        exact hstart.1
      · intro b hb
        injection hb with hb
        subst hb
        decide
    · next hstart =>
      refine ⟨h1, ?_, h3, h4, nodup_snoc h5 hc⟩
      intro hst hov
      have := h2 hst hov
      simp only [List.length_append, List.length_singleton]
      omega

lemma inv_claim {s : SState} (hInv : Inv s) (c : Nat) (row col : Int) :
    Inv (claimDispatch s c row col).1 := by
  obtain ⟨h1, h2, h3, h4, h5⟩ := hInv
  unfold claimDispatch
  cases hl : s.players.lookup c with
  | none => exact ⟨h1, h2, h3, h4, h5⟩
  | some p =>
    dsimp only
    unfold claimCore
    split
    · next hst =>
      have hwf : wfBoard (s.board.getD []) := by
        cases hbd : s.board with
        | none => rw [hbd, hst.1] at h1; cases h1
        | some b0 => exact h4 b0 hbd
      dsimp only
      split
      · next hcond =>
        split
        · refine ⟨by rw [hst.1]; rfl, ?_, ?_, ?_, h5⟩
          · intro _ hov
            cases hov
          · intro hov
            cases hov
          · intro b hb
            injection hb with hb
            subst hb
            exact wfBoard_setCell hwf _ _ _
        · refine ⟨by rw [hst.1]; rfl, ?_, h3, ?_, h5⟩
          · intro _ hov
            exact h2 hst.1 hov
          · intro b hb
            injection hb with hb
            subst hb
            exact wfBoard_setCell hwf _ _ _
      · exact ⟨h1, h2, h3, h4, h5⟩
    · exact ⟨h1, h2, h3, h4, h5⟩

lemma inv_disc {s : SState} (hInv : Inv s) (c : Nat) : Inv (discStep s c).1 := by
  obtain ⟨h1, h2, h3, h4, h5⟩ := hInv
  unfold discStep
  dsimp only
  split
  · -- reset: the registry emptied
    refine ⟨rfl, by simp, fun _ => rfl, ?_, ?_⟩
    · intro b hb
      cases hb
    · split <;> exact h5.filter _
  · next hlen0 =>
    split
    · next habort =>
      refine ⟨h1, ?_, ?_, h4, h5.filter _⟩
      · intro _ hov
        cases hov
      · intro hov
        cases hov
    · next habort =>
      simp only [Bool.and_eq_true, Bool.not_eq_true', decide_eq_true_eq,
        not_and, Bool.not_eq_false] at habort
      refine ⟨h1, ?_, h3, h4, h5.filter _⟩
      intro hst hov
      dsimp only at hst hov ⊢
      have := habort ⟨hst, hov⟩
      omega

lemma inv_step {s : SState} (hInv : Inv s) {e : Ev} (hv : validEvB s e = true) :
    Inv (stepS s e) := by
  cases e with
  | connect c => exact inv_connect hInv (of_decide_eq_true hv)
  | claim c row col => exact inv_claim hInv c row col
  | disconnect c => exact inv_disc hInv c

lemma reachable_inv {s : SState} (hs : Reachable s) : Inv s := by
  induction hs with
  | init => exact inv_init
  | step s e _ hv ih => exact inv_step ih hv

lemma reachable_run {s : SState} (hs : Reachable s) (evs : List Ev)
    (hv : validFromB s evs = true) : Reachable (run s evs) := by
  induction evs generalizing s with
  | nil => exact hs
  | cons e evs ih =>
    simp only [validFromB, Bool.and_eq_true] at hv
    exact ih (Reachable.step s e hs hv.1) hv.2

/-! ## Claim C9: abort on disconnect below the minimum -/

lemma filter_ne_length {l : List Nat} {c : Nat} (h1 : l.Nodup) (h2 : c ∈ l) :
    (l.filter (fun x => decide (x ≠ c))).length + 1 = l.length := by
  induction l with
  | nil => cases h2
  | cons a rest ih =>
    rw [List.nodup_cons] at h1
    rcases List.mem_cons.mp h2 with heq | hmem
    · subst heq
      have hrest : rest.filter (fun x => decide (x ≠ c)) = rest := by
        apply List.filter_eq_self.mpr
        intro x hx
        exact decide_eq_true (fun hxc => h1.1 (hxc ▸ hx))
      rw [List.filter_cons, if_neg (by simp), hrest, List.length_cons]
    · have hac : a ≠ c := fun h => h1.1 (by rw [h]; exact hmem)
      rw [List.filter_cons, if_pos (decide_eq_true hac)]
      have := ih h1.2 hmem
      simp only [List.length_cons]
      omega

/-- The disconnect cleanup never changes the surviving `connected` set
after its initial removal. -/
lemma discStep_connected (s : SState) (c : Nat) :
    (discStep s c).1.connected = s.connected.filter (fun x => decide (x ≠ c)) := by
  unfold discStep
  dsimp only
  split <;> split <;> rfl

/-- C9: removing a participant from a Reachable state in which the game
is started and not over, such that the remaining participant count drops
below 2, puts the session in the Over state with no winner recorded, and
broadcasts the aborted-game event — which is distinct from every decisive
game-over event. -/
theorem C9_thm (s : SState) (c : Nat) (hs : Reachable s)
    (hA : s.started = true) (hO : s.over = false) (hc : c ∈ s.connected)
    (hlow : (discStep s c).1.connected.length < 2) :
    (discStep s c).1.over = true ∧ (discStep s c).1.winner = none ∧
      (discStep s c).1.started = true ∧
      Out.all Msg.aborted ∈ (discStep s c).2 ∧
      ∀ w, Out.all (Msg.gameOver w) ∉ (discStep s c).2 := by
  obtain ⟨h1, h2, h3, h4, h5⟩ := reachable_inv hs
  rw [discStep_connected] at hlow
  have hlen := filter_ne_length h5 hc
  have hmin := h2 hA hO
  have hnz : ¬ (s.connected.filter (fun x => decide (x ≠ c))).length = 0 := by omega
  have habort : (s.started && !s.over &&
      decide ((s.connected.filter (fun x => decide (x ≠ c))).length < 2)) = true := by
    rw [hA, hO, decide_eq_true hlow]
    rfl
  unfold discStep
  dsimp only
  rw [if_pos habort, if_pos habort, if_neg hnz]
  refine ⟨rfl, h3 hO, hA, by simp, ?_⟩
  intro w
  simp

theorem C9_witness :
    ((run initState [Ev.connect 1, Ev.connect 2]).started = true ∧
      (run initState [Ev.connect 1, Ev.connect 2]).over = false ∧
      2 ∈ (run initState [Ev.connect 1, Ev.connect 2]).connected ∧
      (discStep (run initState [Ev.connect 1, Ev.connect 2]) 2).1.connected.length < 2) ∧
    ((discStep (run initState [Ev.connect 1, Ev.connect 2]) 2).1.over = true ∧
      (discStep (run initState [Ev.connect 1, Ev.connect 2]) 2).1.winner = none ∧
      (discStep (run initState [Ev.connect 1, Ev.connect 2]) 2).1.started = true ∧
      Out.all Msg.aborted ∈ (discStep (run initState [Ev.connect 1, Ev.connect 2]) 2).2 ∧
      ∀ w, Out.all (Msg.gameOver w) ∉ (discStep (run initState [Ev.connect 1, Ev.connect 2]) 2).2) :=
  ⟨by decide,
   C9_thm (run initState [Ev.connect 1, Ev.connect 2]) 2
     (reachable_run Reachable.init [Ev.connect 1, Ev.connect 2] (by decide))
     (by decide) (by decide) (by decide) (by decide)⟩

/-! ## Claim C8: cell monotonicity -/

lemma getCell_setCell_ne {b : Board} (r c i j : Nat) (v : Cell)
    (h : ¬ (r = i ∧ c = j)) :
    getCell (setCell b r c v) i j = getCell b i j := by
  simp only [getCell, setCell, List.getD_eq_getElem?_getD]
  by_cases hr : r = i
  · subst hr
    have hc : c ≠ j := fun hcj => h ⟨rfl, hcj⟩
    by_cases hrl : r < b.length
    · rw [List.getElem?_set_self hrl]
      simp only [Option.getD_some]
      rw [List.getElem?_set_ne hc]
    · rw [List.set_eq_of_length_le (by omega)]
  · rw [List.getElem?_set_ne hr]

/-- Per-step board monotonicity: no serialized operation changes a
non-empty cell of a surviving board. -/
lemma stepS_board_mono {s : SState} (hInv : Inv s) (e : Ev) {b b' : Board}
    (hb : s.board = some b) (hb' : (stepS s e).board = some b')
    {i j : Nat} {sym : Sym} (hc : getCell b i j = some sym) :
    getCell b' i j = some sym := by
  obtain ⟨h1, _, _, _, _⟩ := hInv
  have hst : s.started = true := by rw [← h1, hb]; rfl
  cases e with
  | connect c =>
    have hbd : (stepS s (Ev.connect c)).board = s.board := by
      rcases admitConn_cases s c with ⟨hlen, hA⟩ | ⟨hlen, hg, hA⟩ | ⟨sym', hlen, hg, hA⟩
      · simp only [stepS, step, connStep, hA]
      · simp only [stepS, step, connStep, hA]
      · simp only [stepS, step, connStep, hA]
        split
        · next hstart =>
          simp only [Bool.and_eq_true, Bool.not_eq_true', decide_eq_true_eq] at hstart
          rw [hstart.2] at hst
          cases hst
        · rfl
    rw [hb] at hbd
    rw [hbd] at hb'
    injection hb' with hb'
    subst hb'
    exact hc
  | claim c row col =>
    simp only [stepS, step, claimDispatch] at hb'
    cases hl : s.players.lookup c with
    | none =>
      rw [hl] at hb'
      dsimp only at hb'
      rw [hb] at hb'
      injection hb' with hb'
      subst hb'
      exact hc
    | some p =>
      rw [hl] at hb'
      dsimp only at hb'
      unfold claimCore at hb'
      split at hb'
      · next hcond =>
        dsimp only at hb'
        split at hb'
        · next hpre =>
          have hbb : s.board.getD [] = b := by rw [hb]; rfl
          rw [hbb] at hb' hpre
          have hne : ¬ (row.toNat = i ∧ col.toNat = j) := by
            rintro ⟨rfl, rfl⟩
            rw [hpre.2.2.2.2] at hc
            cases hc
          split at hb' <;>
          · dsimp only at hb'
            injection hb' with hb'
            subst hb'
            rw [getCell_setCell_ne _ _ _ _ _ hne]
            exact hc
        · dsimp only at hb'
          rw [hb] at hb'
          injection hb' with hb'
          subst hb'
          exact hc
      · dsimp only at hb'
        rw [hb] at hb'
        injection hb' with hb'
        subst hb'
        exact hc
  | disconnect c =>
    simp only [stepS, step] at hb'
    unfold discStep at hb'
    dsimp only at hb'
    split at hb'
    · cases hb'
    · split at hb' <;>
      · dsimp only at hb'
        rw [hb] at hb'
        injection hb' with hb'
        subst hb'
        exact hc

/-- C8: along every valid event sequence from a reachable state during
which the board is never reset, a cell holding a symbol still holds that
same symbol at the end: no operation of the server changes a non-empty
cell or reverts it to empty within the lifetime of one game. -/
theorem C8_thm (s : SState) (evs : List Ev) (b b' : Board) (i j : Nat) (sym : Sym)
    (hs : Reachable s) (hv : validFromB s evs = true) (hnr : noResetB s evs = true)
    (hb : s.board = some b) (hc : getCell b i j = some sym)
    (hb' : (run s evs).board = some b') :
    getCell b' i j = some sym := by
  induction evs generalizing s b with
  | nil =>
    simp only [run] at hb'
    rw [hb] at hb'
    injection hb' with hb'
    subst hb'
    exact hc
  | cons e evs ih =>
    simp only [validFromB, Bool.and_eq_true] at hv
    simp only [noResetB, Bool.and_eq_true] at hnr
    obtain ⟨bm, hbm⟩ : ∃ bm, (stepS s e).board = some bm := by
      cases hmid : (stepS s e).board with
      | none =>
        have := hnr.1
        rw [hmid] at this
        cases this
      | some bm => exact ⟨bm, rfl⟩
    have hcm := stepS_board_mono (reachable_inv hs) e hb hbm hc
    exact ih (stepS s e) bm (Reachable.step s e hs hv.1) hv.2 hnr.2 hbm hcm hb'

theorem C8_witness :
    (validFromB (run initState [Ev.connect 1, Ev.connect 2, Ev.claim 1 0 0])
        [Ev.claim 2 1 1] = true ∧
      noResetB (run initState [Ev.connect 1, Ev.connect 2, Ev.claim 1 0 0])
        [Ev.claim 2 1 1] = true ∧
      (run initState [Ev.connect 1, Ev.connect 2, Ev.claim 1 0 0]).board =
        some (setCell emptyBoard 0 0 (some Sym.X)) ∧
      getCell (setCell emptyBoard 0 0 (some Sym.X)) 0 0 = some Sym.X ∧
      (run (run initState [Ev.connect 1, Ev.connect 2, Ev.claim 1 0 0])
          [Ev.claim 2 1 1]).board =
        some (setCell (setCell emptyBoard 0 0 (some Sym.X)) 1 1 (some Sym.O))) ∧
    getCell (setCell (setCell emptyBoard 0 0 (some Sym.X)) 1 1 (some Sym.O)) 0 0 =
      some Sym.X :=
  ⟨by decide,
   C8_thm (run initState [Ev.connect 1, Ev.connect 2, Ev.claim 1 0 0])
     [Ev.claim 2 1 1] (setCell emptyBoard 0 0 (some Sym.X))
     (setCell (setCell emptyBoard 0 0 (some Sym.X)) 1 1 (some Sym.O)) 0 0 Sym.X
     (reachable_run Reachable.init [Ev.connect 1, Ev.connect 2, Ev.claim 1 0 0] (by decide))
     (by decide) (by decide) (by decide) (by decide) (by decide)⟩

/-! ## Claim C10: exceptions in the message loop -/

lemma lookup_filter_ne {l : List (Nat × Player)} {c : Nat} :
    (l.filter (fun kv => decide (kv.1 ≠ c))).lookup c = none := by
  induction l with
  | nil => rfl
  | cons kv rest ih =>
    by_cases h : kv.1 = c
    · rw [List.filter_cons, if_neg (by simp [h])]
      exact ih
    · rw [List.filter_cons, if_pos (decide_eq_true h)]
      have hbeq : (c == kv.1) = false := by
        simp only [beq_eq_false_iff_ne, ne_eq]
        exact fun hc => h hc.symm
      show (match c == kv.1 with
            | true => some kv.2
            | false => (rest.filter (fun kv => decide (kv.1 ≠ c))).lookup c) = none
      rw [hbeq]
      exact ih

/-- The disconnect cleanup always removes every `players` entry keyed by
the closed connection. -/
lemma discStep_players (s : SState) (c : Nat) :
    (discStep s c).1.players = s.players.filter (fun kv => decide (kv.1 ≠ c)) := by
  unfold discStep
  dsimp only
  split <;> split <;> rfl

/-- C10: an inbound frame that is not valid JSON, or a claim frame
lacking its `row` or `col` key while the game is running, makes one
iteration of the message loop raise; the loop then behaves exactly as if
the connection had closed: the remaining stream is never read and the
whole disconnect cleanup (`discStep`) runs, leaving the sender absent
from the registry. -/
theorem C10_thm (s : SState) (c : Nat) (m : Inbound) (ms : List Inbound)
    (h : m = Inbound.invalidJson ∨
         (∃ ro co, m = Inbound.claimMsg ro co ∧ (ro = none ∨ co = none) ∧
           s.started = true ∧ s.over = false)) :
    connLoop s c (m :: ms) = discStep s c ∧
      (connLoop s c (m :: ms)).1.players.lookup c = none := by
  have herr : ∃ e, handleMessage s c m = .error e := by
    rcases h with rfl | ⟨ro, co, rfl, hmiss, hst, hov⟩
    · exact ⟨.parseError, rfl⟩
    · refine ⟨.keyError, ?_⟩
      simp only [handleMessage]
      rw [if_pos ⟨hst, hov⟩]
      rcases hmiss with rfl | rfl
      · cases co <;> rfl
      · cases ro <;> rfl
  obtain ⟨e, he⟩ := herr
  have hloop : connLoop s c (m :: ms) = discStep s c := by
    unfold connLoop
    rw [he]
  refine ⟨hloop, ?_⟩
  rw [hloop, discStep_players]
  exact lookup_filter_ne

theorem C10_witness :
    connLoop (run initState [Ev.connect 1, Ev.connect 2]) 1 [Inbound.invalidJson] =
        discStep (run initState [Ev.connect 1, Ev.connect 2]) 1 ∧
      (connLoop (run initState [Ev.connect 1, Ev.connect 2]) 1
          [Inbound.invalidJson]).1.players.lookup 1 = none :=
  C10_thm (run initState [Ev.connect 1, Ev.connect 2]) 1 Inbound.invalidJson []
    (Or.inl rfl)

/-! ## Claims C1, C2, C3: divergences between the code and the spec -/

/-- C1, evaluation of the code at the failing input: from the reachable
state in which the board is `drawBoard` minus its last corner (12 `X`,
12 `O` placed, counts tied, no line win anywhere), the accepted claim of
the `△` player on `(4,4)` fills the board completely — a true draw by
the spec's rules — yet the game does **not** transition to Over and the
only broadcast is the board update: no game-over event with winner none
is ever emitted, because `check_winner` signals a true draw with the same
`None` as "no winner yet" and line 112's truthiness test then skips the
entire game-over block. -/
theorem C1_code_eval :
    (run initState traceC1).started = true ∧
    (run initState traceC1).over = false ∧
    (run initState traceC1).board = some (setCell drawBoard 4 4 none) ∧
    isFull drawBoard = true ∧
    countSym drawBoard Sym.X = countSym drawBoard Sym.O ∧
    (∀ t : Sym, countSym drawBoard t ≤ countSym drawBoard Sym.X) ∧
    (∀ s : Sym, ¬ specLineWin drawBoard s) ∧
    step (run initState traceC1) (Ev.claim 3 4 4) =
      ({ run initState traceC1 with board := some drawBoard },
       [Out.all (Msg.update drawBoard)]) ∧
    (step (run initState traceC1) (Ev.claim 3 4 4)).1.over = false ∧
    (∀ w, Out.all (Msg.gameOver w) ∉ (step (run initState traceC1) (Ev.claim 3 4 4)).2) := by
  decide

/-- C2, evaluation of the code at the failing input: after three
admissions and one disconnect the registry holds 2 participants — below
the maximum of 3 — yet the next admission does not succeed: line 74
evaluates `SYMBOLS[player_id_counter - 1]` with the counter at 4 and
raises `IndexError`, after the connection was already added to
`connected` (and with no cleanup, since the exception escapes before the
handler's `try`). -/
theorem C2_code_eval :
    (run initState [Ev.connect 1, Ev.connect 2, Ev.connect 3, Ev.disconnect 1]).connected.length = 2 ∧
    (run initState [Ev.connect 1, Ev.connect 2, Ev.connect 3, Ev.disconnect 1]).connected.length <
      SYMBOLS.length ∧
    admitConn (run initState [Ev.connect 1, Ev.connect 2, Ev.connect 3, Ev.disconnect 1]) 4 =
      AdmitRes.crash
        { connected := [2, 3, 4],
          players := [(2, (2, Sym.O)), (3, (3, Sym.Tri))],
          counter := 4, board := some emptyBoard,
          started := true, over := false, winner := none } := by
  decide

/-- C3, evaluation of the code at the failing input: after participants
`X` and `O` are admitted and `X` disconnects, the symbol `X` (index 0)
is free, so by the spec the next admission must receive `X`; the code
instead assigns `SYMBOLS[player_id_counter - 1] = SYMBOLS[2] = △`. -/
theorem C3_code_eval :
    specLowestFreeSymbol (run initState [Ev.connect 1, Ev.connect 2, Ev.disconnect 1]) =
      some Sym.X ∧
    admitConn (run initState [Ev.connect 1, Ev.connect 2, Ev.disconnect 1]) 3 =
      AdmitRes.ok
        { connected := [2, 3],
          players := [(2, (2, Sym.O)), (3, (3, Sym.Tri))],
          counter := 4, board := some emptyBoard,
          started := true, over := true, winner := none }
        (3, Sym.Tri) ∧
    Sym.Tri ≠ Sym.X := by
  decide

/-! ## Claim C5: late-joiner catch-up -/

/-- C5, counterexample to the claim as stated: in the reachable state
where the game was aborted (connection 2 left mid-game) the previously
connected participant was sent the distinct aborted-game broadcast, but a
participant admitted afterwards receives only a `game_over` message with
winner none — the same shape a decisive/drawn game over would use — and
no aborted-game indication at all, so its view does not distinguish an
aborted game from a decisive one the way the earlier participants' view
does. -/
theorem C5_counterexample :
    (run initState [Ev.connect 1, Ev.connect 2, Ev.disconnect 2]).over = true ∧
    (run initState [Ev.connect 1, Ev.connect 2, Ev.disconnect 2]).winner = none ∧
    Out.all Msg.aborted ∈
      (step (run initState [Ev.connect 1, Ev.connect 2]) (Ev.disconnect 2)).2 ∧
    Out.uni 3 (Msg.gameOver none) ∈
      (connStep (run initState [Ev.connect 1, Ev.connect 2, Ev.disconnect 2]) 3).2 ∧
    Out.uni 3 Msg.aborted ∉
      (connStep (run initState [Ev.connect 1, Ev.connect 2, Ev.disconnect 2]) 3).2 ∧
    Out.all Msg.aborted ∉
      (connStep (run initState [Ev.connect 1, Ev.connect 2, Ev.disconnect 2]) 3).2 := by
  decide

/-- C5 (amended): every participant whose admission succeeds while the
game is already started receives, synchronously as part of its
admission, the current board, and — if the session is Over — a game-over
message carrying the recorded winner (which is none when the game was
aborted); the distinct aborted-game event is never among the admission
messages, so an aborted game is reported to a late joiner as a game over
without a winner rather than via the abort status. -/
theorem C5_amended_thm (s : SState) (c : Nat) (sym : Sym)
    (hcap : ¬ s.connected.length ≥ SYMBOLS.length)
    (hsym : SYMBOLS.get? (s.counter - 1) = some sym)
    (hA : s.started = true) :
    Out.uni c (Msg.started (s.board.getD [])) ∈ (connStep s c).2 ∧
      (s.over = true → Out.uni c (Msg.gameOver s.winner) ∈ (connStep s c).2) ∧
      (∀ m, Out.uni c m ∈ (connStep s c).2 → m ≠ Msg.aborted) ∧
      Out.all Msg.aborted ∉ (connStep s c).2 := by
  rcases admitConn_cases s c with ⟨hlen, hAd⟩ | ⟨hlen, hg, hAd⟩ | ⟨sym', hlen, hg, hAd⟩
  · exact absurd hlen hcap
  · rw [hg] at hsym
    cases hsym
  · simp only [connStep, hAd]
    dsimp only
    rw [hA]
    simp only [Bool.not_true, Bool.and_false, Bool.false_eq_true, if_false,
      List.nil_append, List.append_assoc]
    refine ⟨?_, ?_, ?_, ?_⟩
    · simp
    · intro hov
      rw [if_pos hov]
      simp
    · intro m hm hab
      subst hab
      by_cases hov : s.over = true
      · rw [if_pos hov] at hm
        simp at hm
      · rw [if_neg hov] at hm
        simp at hm
    · by_cases hov : s.over = true
      · rw [if_pos hov]
        simp
      · rw [if_neg hov]
        simp

theorem C5_amended_witness :
    ((¬ (run initState [Ev.connect 1, Ev.connect 2, Ev.disconnect 2]).connected.length ≥
          SYMBOLS.length) ∧
      SYMBOLS.get?
          ((run initState [Ev.connect 1, Ev.connect 2, Ev.disconnect 2]).counter - 1) =
        some Sym.Tri ∧
      (run initState [Ev.connect 1, Ev.connect 2, Ev.disconnect 2]).started = true) ∧
    (Out.uni 3 (Msg.started
          ((run initState [Ev.connect 1, Ev.connect 2, Ev.disconnect 2]).board.getD [])) ∈
        (connStep (run initState [Ev.connect 1, Ev.connect 2, Ev.disconnect 2]) 3).2 ∧
      ((run initState [Ev.connect 1, Ev.connect 2, Ev.disconnect 2]).over = true →
        Out.uni 3 (Msg.gameOver
            (run initState [Ev.connect 1, Ev.connect 2, Ev.disconnect 2]).winner) ∈
          (connStep (run initState [Ev.connect 1, Ev.connect 2, Ev.disconnect 2]) 3).2) ∧
      (∀ m, Out.uni 3 m ∈
          (connStep (run initState [Ev.connect 1, Ev.connect 2, Ev.disconnect 2]) 3).2 →
        m ≠ Msg.aborted) ∧
      Out.all Msg.aborted ∉
        (connStep (run initState [Ev.connect 1, Ev.connect 2, Ev.disconnect 2]) 3).2) :=
  ⟨⟨by decide, by decide, by decide⟩,
   C5_amended_thm (run initState [Ev.connect 1, Ev.connect 2, Ev.disconnect 2]) 3 Sym.Tri
     (by decide) (by decide) (by decide)⟩

end GridServer
